import Mathlib

/-!
Shallow embedding of the core of `cursor-task-master` (a JS CLI task
tracker).  The embedded functions come from `lib/utils.js`
(`areDependenciesSatisfied`, `getNextTask`, `getTaskById`, `loadTasks`,
`saveTasks`) and `lib/taskManager.js` (`setTaskStatus`).  JS objects are
modelled as Lean structures; fields that may be `undefined` in JS
(`priority`, `dependencies`, `subtasks`) are `Option`s; JS strings stay
`String`; JS numbers used as task ids are `Int`.
-/

namespace CursorTaskMaster

/-- A subtask record: `{ id, title, status }` as produced by task expansion
and consumed by `getTaskById` / `formatTask`. -/
structure Subtask where
  id : Int
  title : String
  status : String
deriving Repr, DecidableEq

/-- A top-level task record as stored in `tasks.json`.  `priority`,
`dependencies` and `subtasks` may be absent in JS, hence `Option`. -/
structure Task where
  id : Int
  title : String
  description : String
  status : String
  priority : Option String
  dependencies : Option (List Int)
  subtasks : Option (List Subtask)
  createdAt : String
  updatedAt : String
deriving Repr, DecidableEq

/-- The `metadata` object of the store. -/
structure Metadata where
  created : String
  lastUpdated : String
  version : String
deriving Repr, DecidableEq

/-- The whole persisted store: `{ tasks: [...], metadata: {...} }`. -/
structure TasksData where
  tasks : List Task
  metadata : Metadata
deriving Repr, DecidableEq

/-- Error kinds of the spec's error taxonomy; the JS code signals them by
throwing or by printing and returning early. -/
inductive Err where
  | notFound
  | invalidArgument
deriving Repr, DecidableEq

/-- The arrow callback of `task.dependencies.every(...)` in
`areDependenciesSatisfied` (`lib/utils.js`): `find` the dependency by id
in `allTasks` and require it to exist with `status === 'done'`. -/
def depSatisfied (allTasks : List Task) (depId : Int) : Bool :=
  match allTasks.find? (fun t => t.id == depId) with
  | some dependency => dependency.status == "done"
  | none => false

/-- Embedding of `areDependenciesSatisfied(task, allTasks)` from `lib/utils.js`:
returns `true` when `task.dependencies` is absent or empty, otherwise
`true` iff every listed dependency id passes `depSatisfied`. -/
def areDependenciesSatisfied (task : Task) (allTasks : List Task) : Bool :=
  match task.dependencies with
  | none => true
  | some deps =>
    if deps.length = 0 then true
    else deps.all (depSatisfied allTasks)

/-- The numeric weight of a priority string, from `getNextTask`:
`priorityValues[p] || priorityValues.medium` with
`priorityValues = { high: 3, medium: 2, low: 1 }` (an absent or
unrecognised priority falls back to the weight of `medium`). -/
def priorityValue (p : Option String) : Int :=
  match p with
  | some s => if s = "high" then 3 else if s = "medium" then 2 else if s = "low" then 1 else 2
  | none => 2

/-- The expression `a.dependencies ? a.dependencies.length : 0` from `getNextTask`. -/
def depCount (t : Task) : Int :=
  match t.dependencies with
  | some l => l.length
  | none => 0

/-- The comparator passed to `availableTasks.sort(...)` in `getNextTask`:
priority weight descending, then dependency count ascending, then id
ascending. -/
def taskCmp (a b : Task) : Int :=
  let aP := priorityValue a.priority
  let bP := priorityValue b.priority
  if bP ≠ aP then bP - aP
  else
    let aD := depCount a
    let bD := depCount b
    if aD ≠ bD then aD - bD
    else a.id - b.id

/-- The array `availableTasks` in `getNextTask`: tasks whose status is `pending` or
`in-progress` and whose dependencies are satisfied against the full
collection. -/
def candidateSet (tasks : List Task) : List Task :=
  tasks.filter fun task =>
    (task.status == "pending" || task.status == "in-progress") &&
    areDependenciesSatisfied task tasks

/-- The element at index 0 of the array sorted by `taskCmp`.  The source
computes `availableTasks.sort(cmp)[0]`; since the comparator is a total
preorder and JS `Array.prototype.sort` is stable, element 0 is the first
minimal element under the comparator, which this left fold computes
(it replaces the running best only on a strictly smaller element). -/
def selectFirst : Task → List Task → Task
  | best, [] => best
  | best, t :: ts => selectFirst (if taskCmp t best < 0 then t else best) ts

/-- Embedding of `getNextTask(tasks)` from `lib/utils.js`: `null` when no candidate,
otherwise the head of the comparator-sorted candidate array. -/
def getNextTask (tasks : List Task) : Option Task :=
  match candidateSet tasks with
  | [] => none
  | t :: ts => some (selectFirst t ts)

/-- The observable effect of one `getNextTask(tasks)` call: its return
value together with the caller's `tasks` array after the call.  Traced
from the source: `tasks.filter` allocates a fresh array, the in-place
`sort` reorders only that fresh array, and no statement assigns to a
task field or to `tasks`, so the collection is left exactly as it was. -/
def getNextTaskRun (tasks : List Task) : Option Task × List Task :=
  (getNextTask tasks, tasks)

/-- An id token as passed on the command line: either a bare integer or a
dotted pair `"P.S"`.  String parsing (`id.toString().includes('.')` and
`split('.').map(Number)` in `getTaskById`) is abstracted into the two
constructors. -/
inductive IdToken where
  | bare (n : Int)
  | dotted (parentId subtaskId : Int)
deriving Repr, DecidableEq

/-- The value `getTaskById` returns on success: either a top-level task
(`{ task, isSubtask: false }`) or a subtask with its parent and 0-based
index (`{ task, parentTask, isSubtask: true, subtaskIndex }`). -/
inductive ResolveResult where
  | topLevel (task : Task)
  | sub (task : Subtask) (parentTask : Task) (subtaskIndex : Nat)
deriving Repr, DecidableEq

/-- Embedding of `getTaskById(tasks, id)` from `lib/utils.js`.  Dotted form: find the
parent by id, then index `subtasks[subtaskId - 1]`; a missing parent, an
absent `subtasks` array, or an out-of-range index throws `not found`
(modelled as `Err.notFound`).  Bare form: find the task by id, throwing
`not found` when absent. -/
def getTaskById (tasks : List Task) : IdToken → Except Err ResolveResult
  | .bare n =>
    match tasks.find? (fun t => t.id == n) with
    | some task => .ok (.topLevel task)
    | none => .error .notFound
  | .dotted parentId subtaskId =>
    match tasks.find? (fun t => t.id == parentId) with
    | none => .error .notFound
    | some parentTask =>
      match parentTask.subtasks with
      | none => .error .notFound
      | some subs =>
        if subtaskId < 1 then .error .notFound
        else
          match subs.get? (subtaskId - 1).toNat with
          | some st => .ok (.sub st parentTask (subtaskId - 1).toNat)
          | none => .error .notFound

/-- The array `validStatuses` from `setTaskStatus` in `lib/taskManager.js`. -/
def validStatuses : List String := ["pending", "in-progress", "done"]

/-- The effect of `parseInt(id, 10)` on an id token, as `setTaskStatus` does to
every element of `taskIds`: on a bare integer string it yields that
integer; on a dotted string `"P.S"` parsing stops at the dot and yields
`P`. -/
def parseIntToken : IdToken → Int
  | .bare n => n
  | .dotted parentId _ => parentId

/-- The outcome of one `setTaskStatus` invocation: the persisted store
after the call, and either an error or the number of updated tasks. -/
structure SetStatusOutcome where
  store : TasksData
  result : Except Err Nat
deriving Repr

/-- Embedding of `setTaskStatus(taskIds, status)` from `lib/taskManager.js`, with the
store passed explicitly and `new Date().toISOString()` modelled by the
`now` parameter.  An invalid status returns early before any write
(`Err.invalidArgument`).  Otherwise every top-level task whose id is in
`taskIds.map(id => parseInt(id, 10))` gets its `status` and `updatedAt`
set; when no task matched, the code returns early before touching
`metadata` or writing the file (`Err.notFound`); otherwise
`metadata.lastUpdated` is refreshed and the store is written back. -/
def setTaskStatus (store : TasksData) (taskIds : List IdToken) (status : String)
    (now : String) : SetStatusOutcome :=
  if validStatuses.contains status then
    let ids := taskIds.map parseIntToken
    let newTasks := store.tasks.map fun task =>
      if ids.contains task.id then
        { task with status := status, updatedAt := now }
      else task
    let updated := (store.tasks.filter fun task => ids.contains task.id).length
    if updated = 0 then
      { store := store, result := .error .notFound }
    else
      { store := { tasks := newTasks
                   metadata := { store.metadata with lastUpdated := now } }
        result := .ok updated }
  else
    { store := store, result := .error .invalidArgument }

/-- The JSON documents `fs.readJSON` / `fs.writeJSON` exchange with the
`tasks.json` file. -/
inductive Json where
  | null
  | num (n : Int)
  | str (s : String)
  | arr (items : List Json)
  | obj (fields : List (String × Json))
deriving Repr

/-- Field lookup in a JSON object, as JS property access on the parsed
document. -/
def getField (fields : List (String × Json)) (key : String) : Option Json :=
  (fields.find? fun p => p.1 == key).map fun p => p.2

def getStr (fields : List (String × Json)) (key : String) : Option String :=
  match getField fields key with
  | some (.str s) => some s
  | _ => none

def getNum (fields : List (String × Json)) (key : String) : Option Int :=
  match getField fields key with
  | some (.num n) => some n
  | _ => none

/-- Serialisation of a subtask record, per the store schema.  Fields that
are `undefined` in JS are omitted by `JSON.stringify`; here every subtask
field is present. -/
def encodeSubtask (s : Subtask) : Json :=
  .obj [("id", .num s.id), ("title", .str s.title), ("status", .str s.status)]

def decodeSubtask (j : Json) : Option Subtask := do
  match j with
  | .obj fields =>
    let id ← getNum fields "id"
    let title ← getStr fields "title"
    let status ← getStr fields "status"
    pure { id := id, title := title, status := status }
  | _ => none

/-- Serialisation of a task record.  `JSON.stringify` drops `undefined`
properties, so the optional fields are emitted only when present. -/
def encodeTask (t : Task) : Json :=
  .obj ([("id", .num t.id), ("title", .str t.title),
         ("description", .str t.description), ("status", .str t.status)] ++
    (match t.priority with
     | some p => [("priority", .str p)]
     | none => []) ++
    (match t.dependencies with
     | some deps => [("dependencies", .arr (deps.map .num))]
     | none => []) ++
    (match t.subtasks with
     | some subs => [("subtasks", .arr (subs.map encodeSubtask))]
     | none => []) ++
    [("createdAt", .str t.createdAt), ("updatedAt", .str t.updatedAt)])

/-- Element-wise decoding of a JSON array, reading each element in
order and failing when any element fails. -/
def decodeList {α : Type} (g : Json → Option α) : List Json → Option (List α)
  | [] => some []
  | j :: js => do
    let x ← g j
    let xs ← decodeList g js
    pure (x :: xs)

def decodeNum (j : Json) : Option Int :=
  match j with
  | .num n => some n
  | _ => none

def decodeDeps (j : Json) : Option (List Int) :=
  match j with
  | .arr items => decodeList decodeNum items
  | _ => none

def decodeTask (j : Json) : Option Task := do
  match j with
  | .obj fields =>
    let id ← getNum fields "id"
    let title ← getStr fields "title"
    let description ← getStr fields "description"
    let status ← getStr fields "status"
    let priority :=
      match getField fields "priority" with
      | some (.str p) => some p
      | _ => none
    let dependencies ←
      match getField fields "dependencies" with
      | some j => (decodeDeps j).map some
      | none => pure none
    let subtasks ←
      match getField fields "subtasks" with
      | some (.arr items) => (decodeList decodeSubtask items).map some
      | some _ => none
      | none => pure none
    let createdAt ← getStr fields "createdAt"
    let updatedAt ← getStr fields "updatedAt"
    pure { id := id, title := title, description := description,
           status := status, priority := priority,
           dependencies := dependencies, subtasks := subtasks,
           createdAt := createdAt, updatedAt := updatedAt }
  | _ => none

def encodeMetadata (m : Metadata) : Json :=
  .obj [("created", .str m.created), ("lastUpdated", .str m.lastUpdated),
        ("version", .str m.version)]

def decodeMetadata (j : Json) : Option Metadata := do
  match j with
  | .obj fields =>
    let created ← getStr fields "created"
    let lastUpdated ← getStr fields "lastUpdated"
    let version ← getStr fields "version"
    pure { created := created, lastUpdated := lastUpdated, version := version }
  | _ => none

/-- Embedding of `saveTasks(tasks)` from `lib/utils.js`: writes the store as a JSON
document via `fs.writeJSON` (the document written, per the store schema). -/
def saveTasks (d : TasksData) : Json :=
  .obj [("tasks", .arr (d.tasks.map encodeTask)),
        ("metadata", encodeMetadata d.metadata)]

/-- Embedding of `loadTasks()` from `lib/utils.js`: reads the JSON document via
`fs.readJSON` and yields the in-memory collection; a document not of the
store's shape yields `none` (the in-memory object would not be a task
collection). -/
def loadTasks (j : Json) : Option TasksData := do
  match j with
  | .obj fields =>
    let tasksJson ←
      match getField fields "tasks" with
      | some (.arr items) => some items
      | _ => none
    let tasks ← decodeList decodeTask tasksJson
    let metadata ←
      match getField fields "metadata" with
      | some m => decodeMetadata m
      | none => none
    pure { tasks := tasks, metadata := metadata }
  | _ => none

/-- The ranking order stated by the spec for the next-task selector:
priority weight (high 3, medium 2, low 1, absent medium) descending,
then raw dependency count ascending, then numeric id ascending.
`specRankLE a b` says `a` ranks at least as high as `b`. -/
def specRankLE (a b : Task) : Prop :=
  priorityValue b.priority < priorityValue a.priority ∨
    (priorityValue a.priority = priorityValue b.priority ∧
      (depCount a < depCount b ∨ (depCount a = depCount b ∧ a.id ≤ b.id)))

instance (a b : Task) : Decidable (specRankLE a b) := by
  unfold specRankLE
  exact inferInstance

lemma taskCmp_le_iff (a b : Task) : taskCmp a b ≤ 0 ↔ specRankLE a b := by
  simp only [taskCmp, specRankLE]
  split_ifs <;> omega

lemma taskCmp_lt_of (a b : Task) (h : taskCmp a b < 0) : specRankLE a b :=
  (taskCmp_le_iff a b).mp (le_of_lt h)

lemma taskCmp_ge_of (a b : Task) (h : ¬ taskCmp a b < 0) : specRankLE b a := by
  apply (taskCmp_le_iff b a).mp
  simp only [taskCmp] at h ⊢
  split_ifs at h ⊢ <;> omega

lemma specRankLE_refl (a : Task) : specRankLE a a := by
  simp [specRankLE]

lemma specRankLE_trans {a b c : Task} (hab : specRankLE a b) (hbc : specRankLE b c) :
    specRankLE a c := by
  simp only [specRankLE] at hab hbc ⊢
  omega

lemma selectFirst_mem (best : Task) (ts : List Task) :
    selectFirst best ts ∈ best :: ts := by
  induction ts generalizing best with
  | nil => simp [selectFirst]
  | cons t ts ih =>
    simp only [selectFirst]
    by_cases hc : taskCmp t best < 0
    · rw [if_pos hc]
      exact List.mem_cons_of_mem best (ih t)
    · rw [if_neg hc]
      rcases List.mem_cons.mp (ih best) with h | h
      · simp [h]
      · simp [List.mem_cons_of_mem, h]

lemma selectFirst_min (best : Task) (ts : List Task) :
    ∀ x ∈ best :: ts, specRankLE (selectFirst best ts) x := by
  induction ts generalizing best with
  | nil =>
    intro x hx
    rcases List.mem_cons.mp hx with h | h
    · exact h ▸ specRankLE_refl best
    · simp at h
  | cons t ts ih =>
    intro x hx
    simp only [selectFirst]
    have hbest : specRankLE (selectFirst (if taskCmp t best < 0 then t else best) ts)
        (if taskCmp t best < 0 then t else best) :=
      ih _ _ (List.mem_cons_self _ _)
    have hboth : specRankLE (selectFirst (if taskCmp t best < 0 then t else best) ts) best ∧
        specRankLE (selectFirst (if taskCmp t best < 0 then t else best) ts) t := by
      by_cases hc : taskCmp t best < 0
      · rw [if_pos hc] at hbest ⊢
        exact ⟨specRankLE_trans hbest (taskCmp_lt_of t best hc), hbest⟩
      · rw [if_neg hc] at hbest ⊢
        exact ⟨hbest, specRankLE_trans hbest (taskCmp_ge_of t best hc)⟩
    rcases List.mem_cons.mp hx with h | h
    · exact h ▸ hboth.1
    · rcases List.mem_cons.mp h with h2 | h2
      · exact h2 ▸ hboth.2
      · exact ih _ _ (List.mem_cons_of_mem _ h2)

/-- A done prerequisite task used by the concrete selector examples. -/
def demoDone : Task :=
  { id := 1, title := "prereq", description := "", status := "done",
    priority := some "high", dependencies := some [], subtasks := none,
    createdAt := "", updatedAt := "" }

/-- Task A of the spec's tie-break example: high priority, no
dependencies, lower id than B. -/
def demoTaskA : Task :=
  { id := 2, title := "A", description := "", status := "pending",
    priority := some "high", dependencies := some [], subtasks := none,
    createdAt := "", updatedAt := "" }

/-- Task B of the spec's tie-break example: high priority, one (done)
dependency, higher id than A. -/
def demoTaskB : Task :=
  { id := 3, title := "B", description := "", status := "pending",
    priority := some "high", dependencies := some [1], subtasks := none,
    createdAt := "", updatedAt := "" }

/-- C1: the selector's candidate set is exactly the tasks with status
`pending` or `in-progress` whose dependencies are satisfied against the
full collection; the selector returns none iff that set is empty, and
any returned task is a member of that set. -/
theorem getNextTask_candidate_set (tasks : List Task) :
    (∀ t, t ∈ candidateSet tasks ↔
      t ∈ tasks ∧ (t.status = "pending" ∨ t.status = "in-progress") ∧
        areDependenciesSatisfied t tasks = true) ∧
    (getNextTask tasks = none ↔ candidateSet tasks = []) ∧
    (∀ r, getNextTask tasks = some r → r ∈ candidateSet tasks) := by
  refine ⟨?_, ?_, ?_⟩
  · intro t
    simp [candidateSet, List.mem_filter, and_assoc]
  · unfold getNextTask
    rcases h : candidateSet tasks with _ | ⟨t, ts⟩ <;> simp
  · intro r hr
    unfold getNextTask at hr
    rcases h : candidateSet tasks with _ | ⟨t, ts⟩
    · rw [h] at hr
      simp at hr
    · rw [h] at hr
      simp only [Option.some.injEq] at hr
      exact hr ▸ selectFirst_mem t ts

/-- C1 witness: on the concrete three-task collection the selector
returns a task, and that task is in the candidate set. -/
theorem getNextTask_candidate_set_witness :
    demoTaskA ∈ candidateSet [demoDone, demoTaskA, demoTaskB] :=
  (getNextTask_candidate_set [demoDone, demoTaskA, demoTaskB]).2.2 demoTaskA (by decide)

/-- C2: on a non-empty candidate set the selector returns a candidate
that ranks at least as high as every candidate in the order: priority
weight (high 3, medium 2, low 1, absent medium) descending, then raw
dependency count ascending, then id ascending; in particular on the
concrete example with pending A (high, no deps, lower id) and pending B
(high, one done dep, higher id) it returns A. -/
theorem getNextTask_ranking :
    (∀ tasks : List Task, candidateSet tasks ≠ [] →
      ∃ r, getNextTask tasks = some r ∧ r ∈ candidateSet tasks ∧
        ∀ t ∈ candidateSet tasks, specRankLE r t) ∧
    getNextTask [demoDone, demoTaskA, demoTaskB] = some demoTaskA := by
  constructor
  · intro tasks hne
    rcases h : candidateSet tasks with _ | ⟨t, ts⟩
    · exact absurd h hne
    · refine ⟨selectFirst t ts, ?_, ?_, ?_⟩
      · unfold getNextTask
        rw [h]
      · exact selectFirst_mem t ts
      · intro x hx
        exact selectFirst_min t ts x hx
  · decide

/-- C2 witness: the general ranking statement applied to the concrete
three-task collection. -/
theorem getNextTask_ranking_witness :
    ∃ r, getNextTask [demoDone, demoTaskA, demoTaskB] = some r ∧
      r ∈ candidateSet [demoDone, demoTaskA, demoTaskB] ∧
      ∀ t ∈ candidateSet [demoDone, demoTaskA, demoTaskB], specRankLE r t :=
  getNextTask_ranking.1 [demoDone, demoTaskA, demoTaskB] (by decide)

lemma depSatisfied_iff_of_nodup (allTasks : List Task)
    (hnodup : (allTasks.map Task.id).Nodup) (d : Int) :
    depSatisfied allTasks d = true ↔ ∃ t ∈ allTasks, t.id = d ∧ t.status = "done" := by
  cases hfind : allTasks.find? (fun t => t.id == d) with
  | none =>
    simp only [depSatisfied, hfind, Bool.false_eq_true, false_iff]
    rintro ⟨t, ht, hid, hdone⟩
    have := List.find?_eq_none.mp hfind t ht
    simp [hid] at this
  | some dep =>
    simp only [depSatisfied, hfind, beq_iff_eq]
    constructor
    · intro h
      refine ⟨dep, List.mem_of_find?_eq_some hfind, ?_, h⟩
      simpa using List.find?_some hfind
    · rintro ⟨t, ht, hid, hdone⟩
      have hdep_id : dep.id = d := by simpa using List.find?_some hfind
      have : dep = t :=
        List.inj_on_of_nodup_map hnodup (List.mem_of_find?_eq_some hfind) ht
          (by rw [hdep_id, hid])
      rw [this, hdone]

lemma depSatisfied_false_of_dangling (allTasks : List Task) (d : Int)
    (h : ∀ t ∈ allTasks, t.id ≠ d) : depSatisfied allTasks d = false := by
  have hfind : allTasks.find? (fun t => t.id == d) = none := by
    rw [List.find?_eq_none]
    intro t ht
    simpa using h t ht
  simp [depSatisfied, hfind]

lemma areDependenciesSatisfied_some (task : Task) (allTasks : List Task)
    (l : List Int) (h : task.dependencies = some l) :
    areDependenciesSatisfied task allTasks =
      if l.length = 0 then true else l.all (depSatisfied allTasks) := by
  simp only [areDependenciesSatisfied, h]

/-- C3: the dependency-satisfaction predicate is true for an absent or
empty dependency list; when the collection's task ids are unique it is
true iff every listed dependency id belongs to an existing task with
status `done`; and a dependency id that resolves to no task makes it
false. -/
theorem areDependenciesSatisfied_characterisation (task : Task) (allTasks : List Task) :
    ((task.dependencies = none ∨ task.dependencies = some []) →
      areDependenciesSatisfied task allTasks = true) ∧
    ((allTasks.map Task.id).Nodup →
      (areDependenciesSatisfied task allTasks = true ↔
        ∀ l, task.dependencies = some l →
          ∀ d ∈ l, ∃ t ∈ allTasks, t.id = d ∧ t.status = "done")) ∧
    (∀ l d, task.dependencies = some l → d ∈ l →
      (∀ t ∈ allTasks, t.id ≠ d) →
      areDependenciesSatisfied task allTasks = false) := by
  refine ⟨?_, ?_, ?_⟩
  · rintro (h | h) <;> simp [areDependenciesSatisfied, h]
  · intro hnodup
    cases hdeps : task.dependencies with
    | none => simp [areDependenciesSatisfied, hdeps]
    | some l =>
      rw [areDependenciesSatisfied_some task allTasks l hdeps]
      by_cases hl : l = []
      · subst hl
        simp
      · rw [if_neg (by simpa [List.length_eq_zero] using hl), List.all_eq_true]
        constructor
        · intro h l2 hl2 d hd
          obtain rfl : l = l2 := by simpa using hl2
          exact (depSatisfied_iff_of_nodup allTasks hnodup d).mp (h d hd)
        · intro h d hd
          exact (depSatisfied_iff_of_nodup allTasks hnodup d).mpr (h l rfl d hd)
  · intro l d hdeps hd hnone
    rw [areDependenciesSatisfied_some task allTasks l hdeps]
    have hl : l ≠ [] := by
      intro h
      rw [h] at hd
      simp at hd
    rw [if_neg (by simpa [List.length_eq_zero] using hl)]
    rcases Bool.eq_false_or_eq_true (l.all (depSatisfied allTasks)) with h | h
    · have := List.all_eq_true.mp h d hd
      rw [depSatisfied_false_of_dangling allTasks d hnone] at this
      simp at this
    · exact h

/-- C3 witness: instances of the three parts on a concrete collection
whose ids are unique. -/
theorem areDependenciesSatisfied_characterisation_witness :
    areDependenciesSatisfied demoTaskA [demoDone, demoTaskA, demoTaskB] = true ∧
    (areDependenciesSatisfied demoTaskB [demoDone, demoTaskA, demoTaskB] = true ↔
      ∀ l, demoTaskB.dependencies = some l →
        ∀ d ∈ l, ∃ t ∈ [demoDone, demoTaskA, demoTaskB], t.id = d ∧ t.status = "done") ∧
    areDependenciesSatisfied
      { demoTaskB with dependencies := some [99] } [demoDone, demoTaskA, demoTaskB] = false :=
  ⟨(areDependenciesSatisfied_characterisation demoTaskA [demoDone, demoTaskA, demoTaskB]).1
      (Or.inr (by decide)),
   (areDependenciesSatisfied_characterisation demoTaskB [demoDone, demoTaskA, demoTaskB]).2.1
      (by decide),
   (areDependenciesSatisfied_characterisation
      { demoTaskB with dependencies := some [99] } [demoDone, demoTaskA, demoTaskB]).2.2
      [99] 99 rfl (by decide) (by decide)⟩

/-- Replace a task's dependency list, leaving every other field alone. -/
def withDependencies (t : Task) (d : Option (List Int)) : Task :=
  { t with dependencies := d }

/-- C9: removing duplicate dependency ids does not change the value of
the dependency-satisfaction predicate. -/
theorem areDependenciesSatisfied_dedup (task : Task) (allTasks : List Task) :
    areDependenciesSatisfied
        (withDependencies task (task.dependencies.map List.dedup)) allTasks =
      areDependenciesSatisfied task allTasks := by
  cases hdeps : task.dependencies with
  | none => simp [areDependenciesSatisfied, withDependencies, hdeps]
  | some l =>
    rw [show Option.map List.dedup (some l) = some l.dedup from rfl,
      areDependenciesSatisfied_some (withDependencies task (some l.dedup)) allTasks l.dedup rfl,
      areDependenciesSatisfied_some task allTasks l hdeps]
    by_cases hl : l = []
    · subst hl
      simp
    · have hdl : l.dedup ≠ [] := fun h => hl ((List.dedup_eq_nil l).mp h)
      rw [if_neg (by simpa [List.length_eq_zero] using hdl),
        if_neg (by simpa [List.length_eq_zero] using hl)]
      rcases Bool.eq_false_or_eq_true (l.all (depSatisfied allTasks)) with h | h
      · rw [h]
        exact List.all_eq_true.mpr fun d hd =>
          List.all_eq_true.mp h d (List.mem_dedup.mp hd)
      · rw [h]
        rcases Bool.eq_false_or_eq_true (l.dedup.all (depSatisfied allTasks)) with h2 | h2
        · exfalso
          have hall : l.all (depSatisfied allTasks) = true :=
            List.all_eq_true.mpr fun d hd =>
              List.all_eq_true.mp h2 d (List.mem_dedup.mpr hd)
          rw [hall] at h
          simp at h
        · rw [h2]

/-- C7: the selector is deterministic and side-effect-free — the
collection after a call is the input collection (membership and order
included), and a second call on that unchanged collection returns the
same result as the first. -/
theorem getNextTask_deterministic (tasks : List Task) :
    (getNextTaskRun tasks).2 = tasks ∧
    (getNextTaskRun ((getNextTaskRun tasks).2)).1 = (getNextTaskRun tasks).1 ∧
    (getNextTaskRun tasks).1 = getNextTask tasks :=
  ⟨rfl, rfl, rfl⟩

/-- A concrete store with the three demo tasks. -/
def demoStore : TasksData :=
  { tasks := [demoDone, demoTaskA, demoTaskB]
    metadata := { created := "c", lastUpdated := "u", version := "1.0.0" } }

/-- C4: `setTaskStatus` with a status outside {pending, in-progress,
done} fails with `InvalidArgument` and performs zero mutations — the
persisted store is exactly the input store. -/
theorem setTaskStatus_invalid_status (store : TasksData) (taskIds : List IdToken)
    (status now : String) (h : status ∉ validStatuses) :
    setTaskStatus store taskIds status now =
      { store := store, result := .error .invalidArgument } := by
  unfold setTaskStatus
  rw [if_neg fun hc => h (List.elem_iff.mp hc)]

/-- C4 witness: a concrete invalid status on a concrete store. -/
theorem setTaskStatus_invalid_status_witness :
    "blocked" ∉ validStatuses ∧
    setTaskStatus demoStore [IdToken.bare 2] "blocked" "T" =
      { store := demoStore, result := .error .invalidArgument } :=
  ⟨by decide,
   setTaskStatus_invalid_status demoStore [IdToken.bare 2] "blocked" "T" (by decide)⟩

/-- A store with one task (id 1, pending) that owns one pending subtask,
addressable as `1.1`. -/
def subtaskStore : TasksData :=
  { tasks := [{ id := 1, title := "parent", description := "", status := "pending",
                priority := none, dependencies := none,
                subtasks := some [{ id := 1, title := "child", status := "pending" }],
                createdAt := "", updatedAt := "" }]
    metadata := { created := "c", lastUpdated := "u", version := "1.0.0" } }

/-- C5 (divergence witness): calling `setTaskStatus` with the dotted
token `1.1` and status `done` — `parseInt('1.1', 10)` yields `1`, so the
call updates the parent task's own status, leaves the first subtask
pending, and still counts one successful update. -/
theorem setTaskStatus_dotted_updates_parent_not_subtask :
    (setTaskStatus subtaskStore [IdToken.dotted 1 1] "done" "T").result = .ok 1 ∧
    (setTaskStatus subtaskStore [IdToken.dotted 1 1] "done" "T").store.tasks.map Task.status
      = ["done"] ∧
    (setTaskStatus subtaskStore [IdToken.dotted 1 1] "done" "T").store.tasks.map Task.subtasks
      = [some [{ id := 1, title := "child", status := "pending" }]] :=
  ⟨rfl, rfl, rfl⟩

/-- C6: dotted lookup fails with `NotFound` for a missing parent or a
1-based subtask position outside `1..len(subtasks)`; `P.1` returns the
first subtask with its parent and 0-based index 0; bare lookup fails
with `NotFound` when no top-level task has the id. -/
theorem getTaskById_resolution (tasks : List Task) (p s n : Int) :
    ((∀ t ∈ tasks, t.id ≠ p) → getTaskById tasks (.dotted p s) = .error .notFound) ∧
    (∀ parent, tasks.find? (fun t => t.id == p) = some parent →
      ¬(1 ≤ s ∧ s ≤ ((parent.subtasks.getD []).length : Int)) →
      getTaskById tasks (.dotted p s) = .error .notFound) ∧
    (∀ parent st rest, tasks.find? (fun t => t.id == p) = some parent →
      parent.subtasks = some (st :: rest) →
      getTaskById tasks (.dotted p 1) = .ok (.sub st parent 0)) ∧
    ((∀ t ∈ tasks, t.id ≠ n) → getTaskById tasks (.bare n) = .error .notFound) := by
  refine ⟨?_, ?_, ?_, ?_⟩
  · intro h
    have hfind : tasks.find? (fun t => t.id == p) = none :=
      List.find?_eq_none.mpr fun t ht => by simpa using h t ht
    simp [getTaskById, hfind]
  · intro parent hfind hrange
    simp only [getTaskById, hfind]
    cases hsubs : parent.subtasks with
    | none => rfl
    | some subs =>
      rw [hsubs] at hrange
      by_cases hs : s < 1
      · simp [hs]
      · have hget : subs[s.toNat - 1]? = none := by
          apply List.getElem?_eq_none
          simp only [Option.getD_some] at hrange
          omega
        simp [hs, hget]
  · intro parent st rest hfind hsubs
    simp [getTaskById, hfind, hsubs]
  · intro h
    have hfind : tasks.find? (fun t => t.id == n) = none :=
      List.find?_eq_none.mpr fun t ht => by simpa using h t ht
    simp [getTaskById, hfind]

/-- The single parent task of `subtaskStore`, used to instantiate the
lookup theorem. -/
def subtaskParent : Task :=
  { id := 1, title := "parent", description := "", status := "pending",
    priority := none, dependencies := none,
    subtasks := some [{ id := 1, title := "child", status := "pending" }],
    createdAt := "", updatedAt := "" }

/-- C6 witness: the four lookup outcomes on the concrete one-task
store. -/
theorem getTaskById_resolution_witness :
    getTaskById subtaskStore.tasks (.dotted 5 1) = .error .notFound ∧
    getTaskById subtaskStore.tasks (.dotted 1 3) = .error .notFound ∧
    getTaskById subtaskStore.tasks (.dotted 1 1) =
      .ok (.sub { id := 1, title := "child", status := "pending" } subtaskParent 0) ∧
    getTaskById subtaskStore.tasks (.bare 9) = .error .notFound :=
  ⟨(getTaskById_resolution subtaskStore.tasks 5 1 9).1 (by decide),
   (getTaskById_resolution subtaskStore.tasks 1 3 9).2.1 subtaskParent (by decide) (by decide),
   (getTaskById_resolution subtaskStore.tasks 1 3 9).2.2.1 subtaskParent
     { id := 1, title := "child", status := "pending" } [] (by decide) (by decide),
   (getTaskById_resolution subtaskStore.tasks 1 3 9).2.2.2 (by decide)⟩

lemma setTaskStatus_valid_hit (store : TasksData) (taskIds : List IdToken)
    (status now : String) (hvalid : status ∈ validStatuses)
    (hhit : (store.tasks.filter fun t =>
      (taskIds.map parseIntToken).contains t.id).length ≠ 0) :
    setTaskStatus store taskIds status now =
      { store := { tasks := store.tasks.map fun task =>
                     if (taskIds.map parseIntToken).contains task.id then
                       { task with status := status, updatedAt := now }
                     else task
                   metadata := { store.metadata with lastUpdated := now } }
        result := .ok ((store.tasks.filter fun t =>
          (taskIds.map parseIntToken).contains t.id).length) } := by
  simp only [setTaskStatus]
  rw [if_pos (List.elem_iff.mpr hvalid), if_neg hhit]

/-- C10: `setTaskStatus` with a valid status and bare integer ids, at
least one of which matches, changes only the `status` and `updatedAt`
fields of the matched tasks and the metadata's `lastUpdated`; every
other field of every task, every unmatched task, the number and order of
tasks (position by position), and the rest of the metadata are
unchanged. -/
theorem setTaskStatus_frame (store : TasksData) (intIds : List Int) (status now : String)
    (hvalid : status ∈ validStatuses)
    (hhit : ∃ t ∈ store.tasks, t.id ∈ intIds) :
    (setTaskStatus store (intIds.map IdToken.bare) status now).store.tasks.length
      = store.tasks.length ∧
    (∀ (i : Nat) (told : Task), store.tasks[i]? = some told →
      ∃ tnew,
        (setTaskStatus store (intIds.map IdToken.bare) status now).store.tasks[i]?
          = some tnew ∧
        (told.id ∈ intIds →
          tnew.id = told.id ∧ tnew.title = told.title ∧
          tnew.description = told.description ∧ tnew.priority = told.priority ∧
          tnew.dependencies = told.dependencies ∧ tnew.subtasks = told.subtasks ∧
          tnew.createdAt = told.createdAt ∧
          tnew.status = status ∧ tnew.updatedAt = now) ∧
        (told.id ∉ intIds → tnew = told)) ∧
    (setTaskStatus store (intIds.map IdToken.bare) status now).store.metadata.created
      = store.metadata.created ∧
    (setTaskStatus store (intIds.map IdToken.bare) status now).store.metadata.version
      = store.metadata.version ∧
    (setTaskStatus store (intIds.map IdToken.bare) status now).store.metadata.lastUpdated
      = now := by
  have hids : (intIds.map IdToken.bare).map parseIntToken = intIds := by
    rw [List.map_map]
    exact List.map_id intIds
  have hhit2 : (store.tasks.filter fun t =>
      ((intIds.map IdToken.bare).map parseIntToken).contains t.id).length ≠ 0 := by
    rw [hids]
    obtain ⟨t, ht, hid⟩ := hhit
    intro hlen
    have := (List.filter_eq_nil_iff.mp (List.length_eq_zero.mp hlen)) t ht
    exact this (by simpa using List.elem_iff.mpr hid)
  rw [setTaskStatus_valid_hit store (intIds.map IdToken.bare) status now hvalid hhit2]
  refine ⟨by simp, ?_, rfl, rfl, rfl⟩
  intro i told htold
  refine ⟨if intIds.contains told.id then
      { told with status := status, updatedAt := now } else told, ?_, ?_, ?_⟩
  · simp only [List.getElem?_map, htold, hids]
    rfl
  · intro hmem
    rw [if_pos (List.elem_iff.mpr hmem)]
    exact ⟨rfl, rfl, rfl, rfl, rfl, rfl, rfl, rfl, rfl⟩
  · intro hmem
    rw [if_neg fun hc => hmem (List.elem_iff.mp hc)]

/-- C10 witness: the frame conditions applied on the concrete demo store
with id set {2}. -/
theorem setTaskStatus_frame_witness :
    (setTaskStatus demoStore ([2].map IdToken.bare) "done" "T").store.tasks.length
      = demoStore.tasks.length ∧
    (setTaskStatus demoStore ([2].map IdToken.bare) "done" "T").store.metadata.lastUpdated
      = "T" := by
  have h := setTaskStatus_frame demoStore [2] "done" "T" (by decide)
    ⟨demoTaskA, by decide, by decide⟩
  exact ⟨h.1, h.2.2.2.2⟩

lemma decodeList_roundtrip {α : Type} (f : α → Json) (g : Json → Option α)
    (hfg : ∀ x, g (f x) = some x) : ∀ l : List α, decodeList g (l.map f) = some l := by
  intro l
  induction l with
  | nil => rfl
  | cons x xs ih => simp [decodeList, hfg, ih]

lemma decodeSubtask_encode (s : Subtask) : decodeSubtask (encodeSubtask s) = some s := rfl

lemma decodeDeps_encode (l : List Int) : decodeDeps (.arr (l.map .num)) = some l := by
  simp only [decodeDeps]
  exact decodeList_roundtrip Json.num decodeNum (fun x => rfl) l

lemma decodeMetadata_encode (m : Metadata) :
    decodeMetadata (encodeMetadata m) = some m := rfl

lemma decodeTask_encode (t : Task) : decodeTask (encodeTask t) = some t := by
  obtain ⟨id, title, description, status, priority, dependencies, subtasks,
    createdAt, updatedAt⟩ := t
  cases priority <;> cases dependencies <;> cases subtasks <;>
    simp [encodeTask, decodeTask, getField, getStr, getNum, decodeDeps_encode,
      decodeList_roundtrip encodeSubtask decodeSubtask decodeSubtask_encode]

lemma loadTasks_saveTasks (d : TasksData) : loadTasks (saveTasks d) = some d := by
  obtain ⟨tasks, metadata⟩ := d
  simp [loadTasks, saveTasks, getField,
    decodeList_roundtrip encodeTask decodeTask decodeTask_encode, decodeMetadata_encode]

/-- C8: loading a store, performing zero mutations, and saving it back
yields a semantically identical collection — reloading the saved
document gives exactly the loaded collection, every field value and the
order of the `tasks` sequence included. -/
theorem load_save_roundtrip (j : Json) (c : TasksData) (_h : loadTasks j = some c) :
    loadTasks (saveTasks c) = some c :=
  loadTasks_saveTasks c

/-- A concrete persisted document containing one task and the metadata
object. -/
def demoJson : Json :=
  .obj [("tasks", .arr [.obj [("id", .num 1), ("title", .str "prereq"),
          ("description", .str ""), ("status", .str "done"),
          ("priority", .str "high"), ("dependencies", .arr []),
          ("createdAt", .str ""), ("updatedAt", .str "")]]),
        ("metadata", .obj [("created", .str "c"), ("lastUpdated", .str "u"),
          ("version", .str "1.0.0")])]

/-- The collection `demoJson` loads to. -/
def demoLoaded : TasksData :=
  { tasks := [demoDone]
    metadata := { created := "c", lastUpdated := "u", version := "1.0.0" } }

/-- C8 witness: the concrete document loads to `demoLoaded`, and saving
`demoLoaded` untouched reloads to exactly `demoLoaded`. -/
theorem load_save_roundtrip_witness :
    loadTasks demoJson = some demoLoaded ∧
    loadTasks (saveTasks demoLoaded) = some demoLoaded :=
  ⟨rfl, load_save_roundtrip demoJson demoLoaded rfl⟩

end CursorTaskMaster
